import Mathlib

/-!
# CirclenClick verification pipeline — shallow embedding

A shallow embedding of the core verification-orchestration pipeline of the
CirclenClick repository, together with theorems checking the natural-language
specification against it.

The embedding covers:
* `cloud/response_models.py` — `ClaimRating`;
* `core/models.py` — `Verdict`, `VerificationResult`;
* `core/result_aggregator.py` — `_determine_verdict`,
  `_calculate_aggregated_confidence` (`Counter.most_common` is modelled by a
  fold that keeps the earliest element of maximal count, matching Python's
  insertion-ordered `Counter`);
* `core/hybrid_decisor.py` — `VerificationStrategy`, `_calculate_factors`,
  `_make_decision`, `decide`;
* `core/content_processor.py` — `_extract_claims`, `_is_likely_claim`;
* `core/verification_engine.py` — `_verify_hybrid`, the result-collection of
  `_verify_cloud`, and the catch-all of `verify`;
* `storage/cache.py` — `_generate_key`, `get`, `_serialize_result`,
  `_deserialize_result`.

Python `float` arithmetic is modelled by exact rational arithmetic (`ℚ`);
Python `datetime` values are modelled by an explicit record with the fields
`datetime` exposes, and `isoformat`/`fromisoformat` are implemented over it.
-/

namespace CirclenClick

/-- `ClaimRating` from `cloud/response_models.py`: the 7-way provider rating. -/
inductive ClaimRating where
  | TRUE | FALSE | MOSTLY_TRUE | MOSTLY_FALSE | MIXED | UNVERIFIABLE | UNCERTAIN
  deriving DecidableEq, Repr

/-- `Verdict` from `core/models.py`: the 5-way canonical verdict. -/
inductive Verdict where
  | TRUE | FALSE | MISLEADING | UNVERIFIABLE | UNCERTAIN
  deriving DecidableEq, Repr

/-- `VerificationStrategy` from `core/hybrid_decisor.py`. -/
inductive VerificationStrategy where
  | LOCAL_ONLY | CLOUD_ONLY | HYBRID
  deriving DecidableEq, Repr

/-- The `rating_map` dictionary inside `_determine_verdict`
(`core/result_aggregator.py`). -/
def rating_map : ClaimRating → Verdict
  | .TRUE => .TRUE
  | .MOSTLY_TRUE => .TRUE
  | .MIXED => .MISLEADING
  | .MOSTLY_FALSE => .MISLEADING
  | .FALSE => .FALSE
  | .UNVERIFIABLE => .UNVERIFIABLE
  | .UNCERTAIN => .UNCERTAIN

/-- Accumulate an element if it is new: one step of building the insertion-order
key sequence of a Python `Counter` (keys appear in order of first appearance). -/
def addFirstSeen {α : Type} [DecidableEq α] (acc : List α) (x : α) : List α :=
  if x ∈ acc then acc else acc ++ [x]

/-- The distinct elements of `l` in order of first appearance: the key order a
Python `Counter` built from `l` iterates in. -/
def firstSeen {α : Type} [DecidableEq α] (l : List α) : List α :=
  l.foldl addFirstSeen []

/-- `Counter(l).most_common(1)[0][0]`: the element of maximal multiplicity,
ties broken by first appearance (Python's `most_common` is stable on the
insertion-ordered counter). `none` only on the empty list. -/
def most_common1 {α : Type} [DecidableEq α] (l : List α) : Option α :=
  (firstSeen l).foldl
    (fun best r =>
      match best with
      | none => some r
      | some b => if l.count b < l.count r then some r else some b)
    none

/-- `ResultAggregator._determine_verdict` (`core/result_aggregator.py`):
map the most common rating through `rating_map`, except that ≥3 distinct
ratings among ≥3 results force `UNCERTAIN`. -/
def determine_verdict (ratings : List ClaimRating) : Verdict :=
  if ratings = [] then Verdict.UNCERTAIN
  else
    let verdict :=
      match most_common1 ratings with
      | some m => rating_map m
      | none => Verdict.UNCERTAIN
    if 3 ≤ (firstSeen ratings).length ∧ 3 ≤ ratings.length then
      Verdict.UNCERTAIN
    else verdict

/-- `ResultAggregator._calculate_aggregated_confidence`
(`core/result_aggregator.py`), with `float` modelled by `ℚ`. -/
def calculate_aggregated_confidence
    (ratings : List ClaimRating) (confidences : List ℚ) : ℚ :=
  if ratings = [] then 0
  else
    let avg_confidence := confidences.sum / (confidences.length : ℚ)
    let mode_count : ℚ :=
      match most_common1 ratings with
      | some m => (ratings.count m : ℚ)
      | none => 0
    let agreement_frac := mode_count / (ratings.length : ℚ)
    let agreement_bonus := (agreement_frac - 1/2) * 40
    let source_bonus := min ((ratings.length : ℚ) * 5) 15
    let total_confidence := avg_confidence + agreement_bonus + source_bonus
    min (max total_confidence 0) 100

/-! ### Properties of `firstSeen` and `most_common1` -/

theorem mem_addFirstSeen {α : Type} [DecidableEq α] (acc : List α) (x a : α) :
    a ∈ addFirstSeen acc x ↔ a ∈ acc ∨ a = x := by
  unfold addFirstSeen
  split
  · constructor
    · exact fun h => Or.inl h
    · rintro (h | rfl)
      · exact h
      · assumption
  · simp [List.mem_append]

theorem mem_foldl_addFirstSeen {α : Type} [DecidableEq α]
    (l : List α) (acc : List α) (a : α) :
    a ∈ l.foldl addFirstSeen acc ↔ a ∈ acc ∨ a ∈ l := by
  induction l generalizing acc with
  | nil => simp
  | cons x rest ih =>
      simp only [List.foldl_cons, ih, mem_addFirstSeen, List.mem_cons]
      tauto

theorem mem_firstSeen {α : Type} [DecidableEq α] (l : List α) (a : α) :
    a ∈ firstSeen l ↔ a ∈ l := by
  unfold firstSeen
  rw [mem_foldl_addFirstSeen]
  simp

theorem nodup_foldl_addFirstSeen {α : Type} [DecidableEq α]
    (l : List α) (acc : List α) (h : acc.Nodup) :
    (l.foldl addFirstSeen acc).Nodup := by
  induction l generalizing acc with
  | nil => simpa using h
  | cons x rest ih =>
      simp only [List.foldl_cons]
      apply ih
      unfold addFirstSeen
      split
      · exact h
      · exact List.Nodup.append h (List.nodup_singleton x)
          (by simpa using fun hx => ‹x ∉ acc› hx)

theorem nodup_firstSeen {α : Type} [DecidableEq α] (l : List α) :
    (firstSeen l).Nodup :=
  nodup_foldl_addFirstSeen l [] List.nodup_nil

theorem pairwise_idx_foldl_addFirstSeen {α : Type} [DecidableEq α] (L : List α) :
    ∀ (rest pre acc : List α), L = pre ++ rest →
      (∀ a, a ∈ acc ↔ a ∈ pre) →
      acc.Pairwise (fun a b => L.indexOf a < L.indexOf b) →
      (rest.foldl addFirstSeen acc).Pairwise (fun a b => L.indexOf a < L.indexOf b) := by
  intro rest
  induction rest with
  | nil => intro pre acc _ _ hpw; simpa using hpw
  | cons x rest ih =>
      intro pre acc hL hmem hpw
      simp only [List.foldl_cons]
      by_cases hx : x ∈ acc
      · have hacc : addFirstSeen acc x = acc := by simp [addFirstSeen, hx]
        rw [hacc]
        refine ih (pre ++ [x]) acc (by simpa using hL) ?_ hpw
        intro a
        rw [hmem a]
        constructor
        · intro h; exact List.mem_append.2 (Or.inl h)
        · intro h
          rcases List.mem_append.1 h with h | h
          · exact h
          · simp only [List.mem_singleton] at h
            subst h
            exact (hmem a).1 hx
      · have hxpre : x ∉ pre := fun h => hx ((hmem x).2 h)
        have hacc : addFirstSeen acc x = acc ++ [x] := by simp [addFirstSeen, hx]
        rw [hacc]
        refine ih (pre ++ [x]) (acc ++ [x]) (by simpa using hL) ?_ ?_
        · intro a
          simp only [List.mem_append, List.mem_singleton, hmem a]
        · rw [List.pairwise_append]
          refine ⟨hpw, List.pairwise_singleton _ _, ?_⟩
          intro a ha b hb
          simp only [List.mem_singleton] at hb
          rw [hb]
          have hapre : a ∈ pre := (hmem a).1 ha
          have hidxa : L.indexOf a < pre.length := by
            rw [hL, List.indexOf_append_of_mem hapre]
            exact List.indexOf_lt_length.2 hapre
          have hidxx : L.indexOf x = pre.length := by
            rw [hL, List.indexOf_append_of_not_mem hxpre, List.indexOf_cons_self]
            omega
          omega

theorem pairwise_indexOf_firstSeen {α : Type} [DecidableEq α] (l : List α) :
    (firstSeen l).Pairwise (fun a b => l.indexOf a < l.indexOf b) :=
  pairwise_idx_foldl_addFirstSeen l l [] [] rfl (by simp) (by simp)

/-- The distinct elements in first-appearance order are a permutation of
`l.dedup`; in particular the length of `firstSeen l` is the number of distinct
elements of `l`. -/
theorem firstSeen_perm_dedup {α : Type} [DecidableEq α] (l : List α) :
    List.Perm (firstSeen l) l.dedup := by
  rw [List.perm_ext_iff_of_nodup (nodup_firstSeen l) (List.nodup_dedup l)]
  intro a
  rw [mem_firstSeen, List.mem_dedup]

/-- Folding the strict-improvement maximum over a pairwise-ordered candidate
list starting from `some b` yields the earliest element of maximal count. -/
theorem foldl_pick_max_spec {α : Type} [DecidableEq α] (l : List α) :
    ∀ (ds : List α) (b : α),
      (b :: ds).Pairwise (fun a c => l.indexOf a < l.indexOf c) →
      ∃ m, ds.foldl
          (fun best r =>
            match best with
            | none => some r
            | some b' => if l.count b' < l.count r then some r else some b')
          (some b) = some m ∧
        m ∈ b :: ds ∧
        (∀ r ∈ b :: ds, l.count r ≤ l.count m) ∧
        (∀ r ∈ b :: ds, l.count r = l.count m → l.indexOf m ≤ l.indexOf r) := by
  intro ds
  induction ds with
  | nil =>
      intro b _
      exact ⟨b, rfl, List.mem_singleton_self b, by simp, by simp⟩
  | cons r rest ih =>
      intro b hpw
      simp only [List.foldl_cons]
      rcases List.pairwise_cons.1 hpw with ⟨hb, hpwtail⟩
      by_cases hc : l.count b < l.count r
      · rw [if_pos hc]
        obtain ⟨m, hm, hmem, hmax, htie⟩ := ih r hpwtail
        refine ⟨m, hm, ?_, ?_, ?_⟩
        · rcases List.mem_cons.1 hmem with h | h
          · subst h; exact List.mem_cons_of_mem _ (List.mem_cons_self _ _)
          · exact List.mem_cons_of_mem _ (List.mem_cons_of_mem _ h)
        · intro s hs
          rcases List.mem_cons.1 hs with h | h
          · subst h
            have hrm : l.count r ≤ l.count m := hmax r (List.mem_cons_self _ _)
            omega
          · exact hmax s h
        · intro s hs hcnt
          rcases List.mem_cons.1 hs with h | h
          · subst h
            have hrm : l.count r ≤ l.count m := hmax r (List.mem_cons_self _ _)
            omega
          · exact htie s h hcnt
      · rw [if_neg hc]
        have hpwb : (b :: rest).Pairwise (fun a c => l.indexOf a < l.indexOf c) := by
          rw [List.pairwise_cons]
          exact ⟨fun a ha => hb a (List.mem_cons_of_mem _ ha),
            (List.pairwise_cons.1 hpwtail).2⟩
        obtain ⟨m, hm, hmem, hmax, htie⟩ := ih b hpwb
        refine ⟨m, hm, ?_, ?_, ?_⟩
        · rcases List.mem_cons.1 hmem with h | h
          · subst h; exact List.mem_cons_self _ _
          · exact List.mem_cons_of_mem _ (List.mem_cons_of_mem _ h)
        · intro s hs
          rcases List.mem_cons.1 hs with h | h
          · subst h; exact hmax s (List.mem_cons_self _ _)
          rcases List.mem_cons.1 h with h' | h'
          · subst h'
            have hbm : l.count b ≤ l.count m := hmax b (List.mem_cons_self _ _)
            omega
          · exact hmax s (List.mem_cons_of_mem _ h')
        · intro s hs hcnt
          rcases List.mem_cons.1 hs with h | h
          · subst h; exact htie s (List.mem_cons_self _ _) hcnt
          rcases List.mem_cons.1 h with h' | h'
          · subst h'
            have hbm : l.count b ≤ l.count m := hmax b (List.mem_cons_self _ _)
            have hbtie : l.count b = l.count m := by omega
            have h1 : l.indexOf m ≤ l.indexOf b := htie b (List.mem_cons_self _ _) hbtie
            have h2 : l.indexOf b < l.indexOf s := hb s (List.mem_cons_self _ _)
            omega
          · exact htie s (List.mem_cons_of_mem _ h') hcnt

/-- On a non-empty list, `most_common1` returns a maximizer of the
multiplicity, and among maximizers the one whose first appearance is
earliest. -/
theorem most_common1_spec {α : Type} [DecidableEq α] (l : List α) (h : l ≠ []) :
    ∃ m, most_common1 l = some m ∧ m ∈ l ∧
      (∀ r ∈ l, l.count r ≤ l.count m) ∧
      (∀ r ∈ l, l.count r = l.count m → l.indexOf m ≤ l.indexOf r) := by
  have hfs : firstSeen l ≠ [] := by
    obtain ⟨x, rest, rfl⟩ := List.exists_cons_of_ne_nil h
    intro hcon
    have : x ∈ firstSeen (x :: rest) := (mem_firstSeen _ _).2 (List.mem_cons_self _ _)
    rw [hcon] at this
    exact List.not_mem_nil x this
  obtain ⟨d, ds, hds⟩ := List.exists_cons_of_ne_nil hfs
  have hpw := pairwise_indexOf_firstSeen l
  rw [hds] at hpw
  obtain ⟨m, hm, hmem, hmax, htie⟩ := foldl_pick_max_spec l ds d hpw
  refine ⟨m, ?_, ?_, ?_, ?_⟩
  · unfold most_common1
    rw [hds, List.foldl_cons]
    exact hm
  · exact (mem_firstSeen l m).1 (hds ▸ hmem)
  · intro r hr
    exact hmax r (hds ▸ (mem_firstSeen l r).2 hr)
  · intro r hr
    exact htie r (hds ▸ (mem_firstSeen l r).2 hr)

/-- The canonical rating-to-verdict mapping exactly as the specification
states it: {TRUE, MOSTLY_TRUE}→TRUE; {MIXED, MOSTLY_FALSE}→MISLEADING;
{FALSE}→FALSE; {UNVERIFIABLE}→UNVERIFIABLE; {UNCERTAIN}→UNCERTAIN. -/
def spec_canonical_map : ClaimRating → Verdict
  | .TRUE => .TRUE
  | .MOSTLY_TRUE => .TRUE
  | .MIXED => .MISLEADING
  | .MOSTLY_FALSE => .MISLEADING
  | .FALSE => .FALSE
  | .UNVERIFIABLE => .UNVERIFIABLE
  | .UNCERTAIN => .UNCERTAIN

theorem rating_map_eq_spec_canonical_map : rating_map = spec_canonical_map := by
  funext r
  cases r <;> rfl

/-- C1: for every non-empty list of provider results, the aggregated verdict
is the canonical mapping of the most frequent raw rating (ties broken by order
of first appearance in the input list), except that ≥3 distinct raw ratings
among ≥3 results force the verdict to `UNCERTAIN` regardless of the mode. -/
theorem determine_verdict_matches_spec (ratings : List ClaimRating)
    (h : ratings ≠ []) :
    ∃ m, m ∈ ratings ∧
      (∀ r ∈ ratings, ratings.count r ≤ ratings.count m) ∧
      (∀ r ∈ ratings, ratings.count r = ratings.count m →
        ratings.indexOf m ≤ ratings.indexOf r) ∧
      determine_verdict ratings =
        (if 3 ≤ ratings.dedup.length ∧ 3 ≤ ratings.length then Verdict.UNCERTAIN
         else spec_canonical_map m) := by
  obtain ⟨m, hmc, hmem, hmax, htie⟩ := most_common1_spec ratings h
  refine ⟨m, hmem, hmax, htie, ?_⟩
  have hlen : (firstSeen ratings).length = ratings.dedup.length :=
    (firstSeen_perm_dedup ratings).length_eq
  unfold determine_verdict
  rw [if_neg h, hmc, hlen, rating_map_eq_spec_canonical_map]

theorem determine_verdict_matches_spec_witness :
    ([ClaimRating.TRUE, ClaimRating.TRUE, ClaimRating.FALSE] ≠ []) ∧
      (∃ m, m ∈ [ClaimRating.TRUE, ClaimRating.TRUE, ClaimRating.FALSE] ∧
        (∀ r ∈ [ClaimRating.TRUE, ClaimRating.TRUE, ClaimRating.FALSE],
          [ClaimRating.TRUE, ClaimRating.TRUE, ClaimRating.FALSE].count r ≤
            [ClaimRating.TRUE, ClaimRating.TRUE, ClaimRating.FALSE].count m) ∧
        (∀ r ∈ [ClaimRating.TRUE, ClaimRating.TRUE, ClaimRating.FALSE],
          [ClaimRating.TRUE, ClaimRating.TRUE, ClaimRating.FALSE].count r =
            [ClaimRating.TRUE, ClaimRating.TRUE, ClaimRating.FALSE].count m →
          [ClaimRating.TRUE, ClaimRating.TRUE, ClaimRating.FALSE].indexOf m ≤
            [ClaimRating.TRUE, ClaimRating.TRUE, ClaimRating.FALSE].indexOf r) ∧
        determine_verdict [ClaimRating.TRUE, ClaimRating.TRUE, ClaimRating.FALSE] =
          (if 3 ≤ [ClaimRating.TRUE, ClaimRating.TRUE, ClaimRating.FALSE].dedup.length ∧
              3 ≤ [ClaimRating.TRUE, ClaimRating.TRUE, ClaimRating.FALSE].length
           then Verdict.UNCERTAIN else spec_canonical_map m)) :=
  ⟨by decide, determine_verdict_matches_spec _ (by decide)⟩

/-- C2: for every non-empty list of provider results with per-provider
confidences in [0,100], the aggregated confidence equals
`clamp(avg(confidences) + (mode_count/total − 0.5)·40 + min(total·5, 15), 0, 100)`
where `mode_count` counts the most frequent raw rating (the two lists are the
ratings and confidences of the same result list, hence equally long), and in
particular it lies in [0,100]. -/
theorem calculate_aggregated_confidence_matches_spec
    (ratings : List ClaimRating) (confidences : List ℚ)
    (hne : ratings ≠ []) (hlen : confidences.length = ratings.length)
    (_hbound : ∀ c ∈ confidences, 0 ≤ c ∧ c ≤ 100) :
    ∃ m, m ∈ ratings ∧
      (∀ r ∈ ratings, ratings.count r ≤ ratings.count m) ∧
      calculate_aggregated_confidence ratings confidences =
        min (max (confidences.sum / (ratings.length : ℚ)
          + ((ratings.count m : ℚ) / (ratings.length : ℚ) - 1/2) * 40
          + min ((ratings.length : ℚ) * 5) 15) 0) 100 ∧
      0 ≤ calculate_aggregated_confidence ratings confidences ∧
      calculate_aggregated_confidence ratings confidences ≤ 100 := by
  obtain ⟨m, hmc, hmem, hmax, _⟩ := most_common1_spec ratings hne
  have heq : calculate_aggregated_confidence ratings confidences =
      min (max (confidences.sum / (ratings.length : ℚ)
        + ((ratings.count m : ℚ) / (ratings.length : ℚ) - 1/2) * 40
        + min ((ratings.length : ℚ) * 5) 15) 0) 100 := by
    unfold calculate_aggregated_confidence
    rw [if_neg hne, hmc, hlen]
  refine ⟨m, hmem, hmax, heq, ?_, ?_⟩
  · rw [heq]
    exact le_min (le_max_right _ 0) (by norm_num)
  · rw [heq]
    exact min_le_right _ 100

theorem calculate_aggregated_confidence_matches_spec_witness :
    ([ClaimRating.TRUE, ClaimRating.FALSE] ≠ []) ∧
      ([(80 : ℚ), 60].length = [ClaimRating.TRUE, ClaimRating.FALSE].length) ∧
      (∀ c ∈ [(80 : ℚ), 60], 0 ≤ c ∧ c ≤ 100) ∧
      (∃ m, m ∈ [ClaimRating.TRUE, ClaimRating.FALSE] ∧
        (∀ r ∈ [ClaimRating.TRUE, ClaimRating.FALSE],
          [ClaimRating.TRUE, ClaimRating.FALSE].count r ≤
            [ClaimRating.TRUE, ClaimRating.FALSE].count m) ∧
        calculate_aggregated_confidence [ClaimRating.TRUE, ClaimRating.FALSE]
            [(80 : ℚ), 60] =
          min (max ([( 80 : ℚ), 60].sum / (([ClaimRating.TRUE, ClaimRating.FALSE].length : ℚ))
            + (([ClaimRating.TRUE, ClaimRating.FALSE].count m : ℚ) /
                (([ClaimRating.TRUE, ClaimRating.FALSE].length : ℚ)) - 1/2) * 40
            + min ((([ClaimRating.TRUE, ClaimRating.FALSE].length : ℚ)) * 5) 15) 0) 100 ∧
        0 ≤ calculate_aggregated_confidence [ClaimRating.TRUE, ClaimRating.FALSE]
            [(80 : ℚ), 60] ∧
        calculate_aggregated_confidence [ClaimRating.TRUE, ClaimRating.FALSE]
            [(80 : ℚ), 60] ≤ 100) :=
  ⟨by decide, by decide, by norm_num, calculate_aggregated_confidence_matches_spec
    [ClaimRating.TRUE, ClaimRating.FALSE] [(80 : ℚ), 60]
    (by decide) (by decide) (by norm_num)⟩

/-! ### Data model: timestamps and verification results -/

/-- A (naive) Python `datetime` value, by its constructor fields. -/
structure DateTime where
  year : Nat
  month : Nat
  day : Nat
  hour : Nat
  minute : Nat
  second : Nat
  microsecond : Nat
  deriving DecidableEq, Repr

/-- The metadata dictionary attached to results; string keys and values. -/
abbrev Metadata : Type := List (String × String)

/-- `VerificationResult` from `core/models.py`, with `float` as `ℚ`. -/
structure VerificationResult where
  verdict : Verdict
  confidence : ℚ
  explanation : String
  sources : List String
  evidence : List String
  strategy_used : Option VerificationStrategy
  processing_time : ℚ
  timestamp : DateTime
  metadata : Metadata
  deriving DecidableEq

/-! ### `VerificationEngine._verify_hybrid` (C3) -/

/-- `VerificationEngine._verify_hybrid` (`core/verification_engine.py`).
The local result is computed first; the cloud-aggregated result is modelled as
an input together with a returned flag recording whether `_verify_cloud` was
invoked at all (`true` exactly on the branch of the source that awaits it). -/
def verify_hybrid (local_result : VerificationResult) (has_cloud_apis : Bool)
    (cloud_result : VerificationResult) : VerificationResult × Bool :=
  if 90 < local_result.confidence then (local_result, false)
  else if has_cloud_apis then (cloud_result, true)
  else (local_result, false)

/-- C3: under HYBRID the engine returns the local result without invoking any
cloud provider when the local confidence is strictly above 90; otherwise it
returns the cloud-aggregated result as a full replacement when a provider is
configured, and the local result when none is. -/
theorem verify_hybrid_matches_spec (local_result cloud_result : VerificationResult)
    (has_cloud_apis : Bool) :
    (90 < local_result.confidence →
      verify_hybrid local_result has_cloud_apis cloud_result = (local_result, false)) ∧
    (local_result.confidence ≤ 90 → has_cloud_apis = true →
      verify_hybrid local_result has_cloud_apis cloud_result = (cloud_result, true)) ∧
    (local_result.confidence ≤ 90 → has_cloud_apis = false →
      verify_hybrid local_result has_cloud_apis cloud_result = (local_result, false)) := by
  refine ⟨?_, ?_, ?_⟩
  · intro h
    simp [verify_hybrid, h]
  · intro h hc
    have hnot : ¬ 90 < local_result.confidence := not_lt.2 h
    simp [verify_hybrid, hnot, hc]
  · intro h hc
    have hnot : ¬ 90 < local_result.confidence := not_lt.2 h
    simp [verify_hybrid, hnot, hc]

/-- A fixed sample timestamp used by concrete instantiations. -/
def sampleTime : DateTime := ⟨2024, 1, 1, 12, 0, 0, 0⟩

/-- A sample local result with confidence 40 (the default local verdict of the
engine's placeholder local pass). -/
def sampleLocalResult : VerificationResult :=
  { verdict := Verdict.UNCERTAIN
    confidence := 40
    explanation := "Local analysis completed. Cloud verification recommended for higher confidence."
    sources := ["Local model analysis"]
    evidence := []
    strategy_used := some VerificationStrategy.LOCAL_ONLY
    processing_time := 0
    timestamp := sampleTime
    metadata := [] }

/-- A sample cloud-aggregated result. -/
def sampleCloudResult : VerificationResult :=
  { verdict := Verdict.FALSE
    confidence := 85
    explanation := "Analysis from 2 fact-checking service(s) contradicts this claim."
    sources := ["FactCheckOrg"]
    evidence := []
    strategy_used := none
    processing_time := 0
    timestamp := sampleTime
    metadata := [] }

theorem verify_hybrid_matches_spec_witness :
    ((90 : ℚ) < sampleLocalResult.confidence →
      verify_hybrid sampleLocalResult true sampleCloudResult = (sampleLocalResult, false)) ∧
    (sampleLocalResult.confidence ≤ 90 → (true : Bool) = true →
      verify_hybrid sampleLocalResult true sampleCloudResult = (sampleCloudResult, true)) ∧
    (sampleLocalResult.confidence ≤ 90 → (true : Bool) = false →
      verify_hybrid sampleLocalResult true sampleCloudResult = (sampleLocalResult, false)) :=
  verify_hybrid_matches_spec sampleLocalResult sampleCloudResult true

/-! ### `VerificationEngine.verify` catch-all (C9) -/

/-- The `except`-branch result of `VerificationEngine.verify`
(`core/verification_engine.py`): verdict UNCERTAIN, confidence 0, the error
text in the explanation and in the metadata under the key "error". -/
def verify_error_result (e : String) (processing_time : ℚ) (now : DateTime) :
    VerificationResult :=
  { verdict := Verdict.UNCERTAIN
    confidence := 0
    explanation := "Verification failed due to error: " ++ e
    sources := []
    evidence := []
    strategy_used := some VerificationStrategy.LOCAL_ONLY
    processing_time := processing_time
    timestamp := now
    metadata := [("error", e)] }

/-- The try/except structure of `VerificationEngine.verify`: the per-request
pipeline either produces a result or raises, and a raise is converted into
`verify_error_result` rather than propagated. -/
def verify (pipeline : Except String VerificationResult)
    (processing_time : ℚ) (now : DateTime) : VerificationResult :=
  match pipeline with
  | Except.ok r => r
  | Except.error e => verify_error_result e processing_time now

/-- C9: a pipeline fault never propagates: `verify` is total over pipeline
outcomes, and on any raised error it returns a result whose verdict is
UNCERTAIN (never unset) and whose confidence is 0, with the error text placed
in the metadata. -/
theorem verify_catch_all_matches_spec (e : String) (processing_time : ℚ)
    (now : DateTime) :
    (verify (Except.error e) processing_time now).verdict = Verdict.UNCERTAIN ∧
    (verify (Except.error e) processing_time now).confidence = 0 ∧
    ("error", e) ∈ (verify (Except.error e) processing_time now).metadata ∧
    (∀ r : VerificationResult,
      verify (Except.ok r) processing_time now = r) := by
  refine ⟨rfl, rfl, ?_, fun r => rfl⟩
  simp [verify, verify_error_result, Metadata]

/-! ### Cloud fan-out result collection (C8) -/

/-- `FactCheckSource` from `cloud/response_models.py` (the fields the
aggregation pipeline reads). -/
structure FactCheckSource where
  name : String
  url : Option String
  date : Option DateTime
  rating : ClaimRating
  title : Option String := none
  excerpt : Option String := none
  deriving DecidableEq

/-- `CloudVerificationResult` from `cloud/response_models.py` (the raw
provider payload is opaque to the pipeline and omitted). -/
structure CloudVerificationResult where
  claim : String
  rating : ClaimRating
  confidence : ℚ
  sources : List FactCheckSource
  explanation : Option String := none
  api_name : String := ""
  deriving DecidableEq

/-- The outcome of one gathered provider task in
`VerificationEngine._verify_cloud`: a payload, `None`, or a raised exception
(`asyncio.gather(..., return_exceptions=True)` turns exceptions and timeouts
into values). -/
inductive ProviderOutcome where
  | payload (r : CloudVerificationResult)
  | no_payload
  | raised (e : String)
  deriving DecidableEq

/-- The result-collection loop of `VerificationEngine._verify_cloud`
(`core/verification_engine.py`): keep a gathered value exactly when it is not
`None` and not an exception. -/
def collect_cloud_results (outcomes : List ProviderOutcome) :
    List CloudVerificationResult :=
  outcomes.foldl
    (fun cloud_results result =>
      match result with
      | ProviderOutcome.payload r => cloud_results ++ [r]
      | ProviderOutcome.no_payload => cloud_results
      | ProviderOutcome.raised _ => cloud_results)
    []

/-- The verdict of `ResultAggregator.aggregate_cloud_results` on the collected
results (`verdict = self._determine_verdict(ratings)` with
`ratings = [r.rating for r in results]`). -/
def aggregate_verdict (results : List CloudVerificationResult) : Verdict :=
  determine_verdict (results.map CloudVerificationResult.rating)

/-- The confidence of `ResultAggregator.aggregate_cloud_results` on the
collected results. -/
def aggregate_confidence (results : List CloudVerificationResult) : ℚ :=
  calculate_aggregated_confidence
    (results.map CloudVerificationResult.rating)
    (results.map CloudVerificationResult.confidence)

/-- The one success case of the collection filter. -/
def outcome_success : ProviderOutcome → Option CloudVerificationResult
  | ProviderOutcome.payload r => some r
  | ProviderOutcome.no_payload => none
  | ProviderOutcome.raised _ => none

theorem collect_cloud_results_go (outcomes : List ProviderOutcome)
    (acc : List CloudVerificationResult) :
    outcomes.foldl
      (fun cloud_results result =>
        match result with
        | ProviderOutcome.payload r => cloud_results ++ [r]
        | ProviderOutcome.no_payload => cloud_results
        | ProviderOutcome.raised _ => cloud_results)
      acc = acc ++ outcomes.filterMap outcome_success := by
  induction outcomes generalizing acc with
  | nil => simp
  | cons o rest ih =>
      cases o with
      | payload r => simp [List.foldl_cons, ih, outcome_success]
      | no_payload => simp [List.foldl_cons, ih, outcome_success]
      | raised e => simp [List.foldl_cons, ih, outcome_success]

/-- C8: a provider task that raised, timed out, or produced no payload
contributes no result and does not disturb the sibling results: the collected
list is exactly the successful payloads in order, inserting a failed outcome
anywhere leaves the collection unchanged, and the aggregator then runs on
exactly that collected subset. -/
theorem collect_cloud_results_matches_spec (outcomes : List ProviderOutcome) :
    collect_cloud_results outcomes = outcomes.filterMap outcome_success ∧
    (∀ (pre post : List ProviderOutcome) (bad : ProviderOutcome),
      outcome_success bad = none →
      collect_cloud_results (pre ++ bad :: post) =
        collect_cloud_results (pre ++ post)) ∧
    aggregate_verdict (collect_cloud_results outcomes) =
      determine_verdict
        ((outcomes.filterMap outcome_success).map CloudVerificationResult.rating) ∧
    aggregate_confidence (collect_cloud_results outcomes) =
      calculate_aggregated_confidence
        ((outcomes.filterMap outcome_success).map CloudVerificationResult.rating)
        ((outcomes.filterMap outcome_success).map CloudVerificationResult.confidence) := by
  have hgo : ∀ os : List ProviderOutcome,
      collect_cloud_results os = os.filterMap outcome_success := by
    intro os
    have := collect_cloud_results_go os []
    simpa [collect_cloud_results] using this
  refine ⟨hgo outcomes, ?_, ?_, ?_⟩
  · intro pre post bad hbad
    rw [hgo, hgo, List.filterMap_append, List.filterMap_append,
      List.filterMap_cons, hbad]
  · rw [hgo, aggregate_verdict]
  · rw [hgo, aggregate_confidence]

theorem collect_cloud_results_matches_spec_witness :
    (collect_cloud_results [] = List.filterMap outcome_success [] ∧
      (∀ (pre post : List ProviderOutcome) (bad : ProviderOutcome),
        outcome_success bad = none →
        collect_cloud_results (pre ++ bad :: post) =
          collect_cloud_results (pre ++ post)) ∧
      aggregate_verdict (collect_cloud_results []) =
        determine_verdict
          ((List.filterMap outcome_success []).map CloudVerificationResult.rating) ∧
      aggregate_confidence (collect_cloud_results []) =
        calculate_aggregated_confidence
          ((List.filterMap outcome_success []).map CloudVerificationResult.rating)
          ((List.filterMap outcome_success []).map CloudVerificationResult.confidence)) ∧
    outcome_success (ProviderOutcome.raised "timeout") = none ∧
    collect_cloud_results
        [ProviderOutcome.raised "timeout", ProviderOutcome.no_payload] = [] :=
  ⟨collect_cloud_results_matches_spec [], rfl, rfl⟩

/-! ### Strategy decisor (C7): `core/hybrid_decisor.py` -/

/-- The whitespace characters of Python's `str.split` / `str.strip`
(ASCII portion). -/
def isPySpace (c : Char) : Bool :=
  c.toNat = 32 || c.toNat = 9 || c.toNat = 10 || c.toNat = 13 ||
    c.toNat = 11 || c.toNat = 12

/-- Python `str.lower` on one character (ASCII portion; other characters are
left unchanged in this model). -/
def pyLowerChar (c : Char) : Char :=
  if 65 ≤ c.toNat ∧ c.toNat ≤ 90 then Char.ofNat (c.toNat + 32) else c

/-- Python `str.lower` (ASCII portion). -/
def pyLower (s : List Char) : List Char := s.map pyLowerChar

/-- Python ASCII digit test (`char.isdigit` restricted to ASCII). -/
def isAsciiDigit (c : Char) : Bool := '0' ≤ c && c ≤ '9'

/-- Whether `pat` is a prefix of `s`. -/
def startsWith : List Char → List Char → Bool
  | [], _ => true
  | _ :: _, [] => false
  | a :: pat, b :: s => a == b && startsWith pat s

/-- Python's `pat in s` substring test. -/
def containsSeq (pat : List Char) : List Char → Bool
  | [] => startsWith pat []
  | b :: s => startsWith pat (b :: s) || containsSeq pat s

/-- `len(claim.split())`: the number of maximal non-whitespace runs. -/
def split_word_count (s : List Char) : Nat :=
  (s.foldl
    (fun st c =>
      if isPySpace c then (st.1, false)
      else if st.2 then st else (st.1 + 1, true))
    ((0 : Nat), false)).1

/-- The fixed superlative word list of `HybridDecisor._calculate_factors`. -/
def superlatives : List (List Char) :=
  ["biggest", "largest", "most", "least", "first", "last", "only"].map String.data

/-- `any(char.isdigit() for char in claim)` in `_calculate_factors`. -/
def claim_has_numbers (c : String) : Bool := c.data.any isAsciiDigit

/-- `any(word in claim.lower() for word in superlatives)` in
`_calculate_factors` (a substring test, not a word test). -/
def claim_has_superlative (c : String) : Bool :=
  superlatives.any (fun w => containsSeq w (pyLower c.data))

/-- `DecisionFactors` from `core/hybrid_decisor.py`. -/
structure DecisionFactors where
  claim_complexity : ℚ
  claim_count : Nat
  has_numbers : Bool
  has_superlatives : Bool
  content_length : Nat
  cache_available : Bool
  cloud_apis_available : Bool
  user_preference : VerificationStrategy := VerificationStrategy.HYBRID
  deriving DecidableEq

/-- `HybridDecisor._calculate_factors` (`core/hybrid_decisor.py`), with
`float` as `ℚ`. -/
def calculate_factors (claims : List String) (content_length : Nat)
    (cloud_apis_available : Bool) (user_preference : VerificationStrategy) :
    DecisionFactors :=
  let claim_count := claims.length
  let has_numbers := claims.any claim_has_numbers
  let has_superlatives := claims.any claim_has_superlative
  let complexity : ℚ :=
    if 0 < claim_count then
      let avg_claim_length : ℚ :=
        ((claims.map fun c => (split_word_count c.data : ℚ)).sum) / (claim_count : ℚ)
      min ((claim_count : ℚ) / 10) (3/10) + min (avg_claim_length / 50) (3/10)
        + (if has_numbers then 1/5 else 0)
        + (if has_superlatives then 1/5 else 0)
    else 0
  { claim_complexity := min complexity 1
    claim_count := claim_count
    has_numbers := if 0 < claim_count then has_numbers else false
    has_superlatives := if 0 < claim_count then has_superlatives else false
    content_length := content_length
    cache_available := false
    cloud_apis_available := cloud_apis_available
    user_preference := user_preference }

/-- `HybridDecisor._make_decision` (`core/hybrid_decisor.py`). -/
def make_decision (factors : DecisionFactors) : VerificationStrategy :=
  if factors.claim_count = 0 then VerificationStrategy.LOCAL_ONLY
  else if factors.claim_complexity < 3/10 ∧ factors.claim_count ≤ 2 then
    VerificationStrategy.LOCAL_ONLY
  else if 6/10 < factors.claim_complexity ∨ 5 < factors.claim_count then
    (if factors.cloud_apis_available then VerificationStrategy.HYBRID
     else VerificationStrategy.LOCAL_ONLY)
  else if (factors.has_numbers ∨ factors.has_superlatives) ∧
      factors.cloud_apis_available then
    VerificationStrategy.HYBRID
  else VerificationStrategy.LOCAL_ONLY

/-- `HybridDecisor.decide` (`core/hybrid_decisor.py`). The configuration
reads `settings.has_cloud_apis()` and `settings.local_only_mode`; both are
external inputs here. -/
def decide_strategy (claims : List String) (content_length : Nat)
    (cache_available : Bool) (user_preference : VerificationStrategy)
    (has_cloud_apis : Bool) (local_only_mode : Bool) : VerificationStrategy :=
  if cache_available then VerificationStrategy.LOCAL_ONLY
  else
    let cloud_available := has_cloud_apis && !local_only_mode
    if cloud_available = false ∨ user_preference = VerificationStrategy.LOCAL_ONLY then
      VerificationStrategy.LOCAL_ONLY
    else if user_preference = VerificationStrategy.CLOUD_ONLY then
      VerificationStrategy.CLOUD_ONLY
    else
      make_decision (calculate_factors claims content_length cloud_available user_preference)

/-- The complexity score exactly as the specification's sentence states it:
`min(claim_count/10, 0.3) + min(avg_claim_word_count/50, 0.3) + 0.2·[digit]
+ 0.2·[superlative]`. -/
def spec_complexity (claims : List String) : ℚ :=
  min ((claims.length : ℚ) / 10) (3/10)
    + min ((((claims.map fun c => (split_word_count c.data : ℚ)).sum)
        / (claims.length : ℚ)) / 50) (3/10)
    + (if claims.any claim_has_numbers then 1/5 else 0)
    + (if claims.any claim_has_superlative then 1/5 else 0)

/-- The specification's decision table over `spec_complexity`, in the case
where cloud providers are available. -/
def spec_decision_table (claims : List String) : VerificationStrategy :=
  if claims.length = 0 then VerificationStrategy.LOCAL_ONLY
  else if spec_complexity claims < 3/10 ∧ claims.length ≤ 2 then
    VerificationStrategy.LOCAL_ONLY
  else if 6/10 < spec_complexity claims ∨ 5 < claims.length then
    VerificationStrategy.HYBRID
  else if claims.any claim_has_numbers ∨ claims.any claim_has_superlative then
    VerificationStrategy.HYBRID
  else VerificationStrategy.LOCAL_ONLY

theorem spec_complexity_le_one (claims : List String) :
    spec_complexity claims ≤ 1 := by
  unfold spec_complexity
  have h1 : min ((claims.length : ℚ) / 10) (3/10) ≤ 3/10 := min_le_right _ _
  have h2 : min ((((claims.map fun c => (split_word_count c.data : ℚ)).sum)
      / (claims.length : ℚ)) / 50) (3/10) ≤ 3/10 := min_le_right _ _
  have h3 : (if claims.any claim_has_numbers then (1 : ℚ)/5 else 0) ≤ 1/5 := by
    split <;> norm_num
  have h4 : (if claims.any claim_has_superlative then (1 : ℚ)/5 else 0) ≤ 1/5 := by
    split <;> norm_num
  linarith

/-- C7: with no known cache hit, cloud providers available, local-only mode
off, and user preference HYBRID, `decide` returns exactly the specification's
decision table over the specification's complexity score. -/
theorem decide_strategy_matches_spec_table (claims : List String)
    (content_length : Nat) :
    decide_strategy claims content_length false VerificationStrategy.HYBRID
        true false = spec_decision_table claims := by
  unfold decide_strategy
  simp only [Bool.and_true, Bool.not_false, if_false]
  have hcase : ¬((true : Bool) = false ∨
      VerificationStrategy.HYBRID = VerificationStrategy.LOCAL_ONLY) := by
    simp
  rw [if_neg (by simp), if_neg hcase, if_neg (by simp)]
  unfold make_decision calculate_factors spec_decision_table
  simp only []
  by_cases h0 : claims.length = 0
  · simp [h0]
  · have hpos : 0 < claims.length := Nat.pos_of_ne_zero h0
    simp only [hpos, if_true, if_neg h0, and_true, true_and]
    have hcap : (min ((claims.length : ℚ) / 10) (3/10)
        + min ((((claims.map fun c => (split_word_count c.data : ℚ)).sum)
            / (claims.length : ℚ)) / 50) (3/10)
        + (if claims.any claim_has_numbers then (1 : ℚ)/5 else 0)
        + (if claims.any claim_has_superlative then (1 : ℚ)/5 else 0)) =
        spec_complexity claims := rfl
    rw [hcap, min_eq_left (spec_complexity_le_one claims)]

/-! ### Content processor claim extraction (C10): `core/content_processor.py` -/

/-- Python `str.strip` (ASCII whitespace portion). -/
def pyStrip (s : List Char) : List Char :=
  ((s.dropWhile isPySpace).reverse.dropWhile isPySpace).reverse

/-- `sentence.strip().endswith(c)`. -/
def endsWithChar (c : Char) (s : List Char) : Bool := s.reverse.head? == some c

/-- Match `pat` case-insensitively at the head, returning the remainder. -/
def stripSeqCI : List Char → List Char → Option (List Char)
  | [], s => some s
  | _ :: _, [] => none
  | a :: pat, b :: s => if pyLowerChar b = a then stripSeqCI pat s else none

/-- Regex `\s+` followed by a continuation: consume one or more whitespace
characters, then the continuation must succeed. -/
def afterWsPlus (k : List Char → Bool) : List Char → Bool
  | [] => false
  | c :: rest => isPySpace c && (k rest || afterWsPlus k rest)

/-- `re.search`: try the position matcher at every suffix. -/
def searchAny (matchAt : List Char → Bool) : List Char → Bool
  | [] => matchAt []
  | c :: rest => matchAt (c :: rest) || searchAny matchAt rest

/-- Case-insensitive substring test (`re.search` of a literal alternation
branch with `re.IGNORECASE`). -/
def containsCI (pat : String) (s : List Char) : Bool :=
  containsSeq pat.data (pyLower s)

/-- Regex `\d+%`: some digit immediately followed by `%`. -/
def hasDigitPercent : List Char → Bool
  | [] => false
  | [_] => false
  | a :: b :: rest => (isAsciiDigit a && b == '%') || hasDigitPercent (b :: rest)

/-- The unit words of the regex `\d+\s+(billion|million|thousand)`. -/
def unitWords : List String := ["billion", "million", "thousand"]

/-- Regex `\d+\s+(billion|million|thousand)` (case-insensitive): a digit, one
or more whitespace characters, then a unit word. -/
def hasNumberUnit : List Char → Bool
  | [] => false
  | c :: rest =>
      (isAsciiDigit c &&
        afterWsPlus (fun r => unitWords.any fun w => (stripSeqCI w.data r).isSome) rest)
      || hasNumberUnit rest

/-- Regex `(is|are|was|were)\s+(the|a)\s+` (case-insensitive) at one
position. -/
def copulaAt (s : List Char) : Bool :=
  ["is", "are", "was", "were"].any fun v =>
    match stripSeqCI v.data s with
    | some r1 =>
        afterWsPlus
          (fun r2 =>
            ["the", "a"].any fun d =>
              match stripSeqCI d.data r2 with
              | some r3 => afterWsPlus (fun _ => true) r3
              | none => false)
          r1
    | none => false

/-- The `claim_indicators` alternations of `ContentProcessor._extract_claims`,
each searched with `re.IGNORECASE`. -/
def matches_claim_indicator (sentence : String) : Bool :=
  let s := sentence.data
  hasDigitPercent s
  || hasNumberUnit s
  || (["according to", "study shows", "research found", "report states"].any
        fun w => containsCI w s)
  || searchAny copulaAt s
  || (["first", "largest", "biggest", "most", "least"].any fun w => containsCI w s)
  || (["every", "all", "no", "none"].any fun w => containsCI w s)
  || (["cause", "causes", "caused"].any fun w => containsCI w s)
  || (["contain", "contains"].any fun w => containsCI w s)

/-- The `opinion_markers` list of `ContentProcessor._is_likely_claim`. -/
def opinion_markers : List String :=
  ["i think", "i believe", "in my opinion", "i feel", "seems like", "maybe", "perhaps"]

/-- The `factual_patterns` list of `ContentProcessor._is_likely_claim`
(apostrophes written as `\x27`). -/
def factual_patterns : List String :=
  [" is ", " are ", " was ", " were ",
   " has ", " have ", " had ",
   " will ", " would ", " should ",
   " can ", " cannot ", " can\x27t ",
   " does ", " do ", " did ",
   " shows ", " proves ", " demonstrates ",
   " cause ", " causes ", " caused ",
   " contain ", " contains ", " contained ",
   " make ", " makes ", " made ",
   " create ", " creates ", " created ",
   " lead ", " leads ", " led ",
   "don\x27t ", "doesn\x27t ", "didn\x27t ",
   "won\x27t ", "wouldn\x27t ", "shouldn\x27t "]

/-- `ContentProcessor._is_likely_claim` (`core/content_processor.py`): filter
questions, very short sentences and first-person opinions; every other
declarative sentence is inclusively treated as a claim (the factual-pattern
branch and the fallback both return `True`). -/
def is_likely_claim (sentence : String) : Bool :=
  if endsWithChar '?' (pyStrip sentence.data) then false
  else if split_word_count sentence.data < 3 then false
  else if opinion_markers.any (fun m => containsSeq m.data (pyLower sentence.data)) then
    false
  else if factual_patterns.any (fun p => containsSeq p.data (pyLower sentence.data)) then
    true
  else true

/-- `ContentProcessor._extract_claims` (`core/content_processor.py`): per
sentence, append it when an indicator matches and it is not yet listed, then
append it when the likely-claim heuristic accepts it and it is not yet
listed. -/
def extract_claims (sentences : List String) : List String :=
  sentences.foldl
    (fun claims sentence =>
      let claims1 :=
        if matches_claim_indicator sentence ∧ sentence ∉ claims then
          claims ++ [sentence]
        else claims
      if is_likely_claim sentence ∧ sentence ∉ claims1 then
        claims1 ++ [sentence]
      else claims1)
    []

/-- Guarded append: add `x` when the predicate holds and it is new. The net
effect of one sentence step of `_extract_claims`. -/
def addIfNew {α : Type} [DecidableEq α] (p : α → Bool) (acc : List α) (x : α) :
    List α :=
  if p x = true ∧ x ∉ acc then acc ++ [x] else acc

/-- The per-sentence predicate of `_extract_claims`: indicator match or
likely-claim heuristic. -/
def is_candidate_claim (sentence : String) : Bool :=
  matches_claim_indicator sentence || is_likely_claim sentence

theorem extract_claims_step (claims : List String) (sentence : String) :
    (let claims1 :=
      if matches_claim_indicator sentence ∧ sentence ∉ claims then
        claims ++ [sentence]
      else claims
    if is_likely_claim sentence ∧ sentence ∉ claims1 then
      claims1 ++ [sentence]
    else claims1) = addIfNew is_candidate_claim claims sentence := by
  by_cases hi : matches_claim_indicator sentence
  · by_cases hm : sentence ∈ claims
    · simp [addIfNew, is_candidate_claim, hi, hm]
    · simp [addIfNew, is_candidate_claim, hi, hm]
  · by_cases hl : is_likely_claim sentence
    · by_cases hm : sentence ∈ claims
      · simp [addIfNew, is_candidate_claim, hi, hl, hm]
      · simp [addIfNew, is_candidate_claim, hi, hl, hm]
    · simp [addIfNew, is_candidate_claim, hi, hl]

theorem extract_claims_eq_foldl_addIfNew (sentences : List String) :
    extract_claims sentences =
      sentences.foldl (addIfNew is_candidate_claim) [] := by
  unfold extract_claims
  congr 1
  funext claims sentence
  exact extract_claims_step claims sentence

theorem sublist_foldl_addIfNew {α : Type} [DecidableEq α] (p : α → Bool) :
    ∀ (l acc : List α), List.Sublist (l.foldl (addIfNew p) acc) (acc ++ l) := by
  intro l
  induction l with
  | nil => intro acc; simp
  | cons x rest ih =>
      intro acc
      simp only [List.foldl_cons]
      unfold addIfNew
      split
      · have := ih (acc ++ [x])
        simpa using this
      · exact (ih acc).trans
          (List.append_sublist_append_left acc |>.2 ((List.Sublist.refl rest).cons x))

theorem nodup_foldl_addIfNew {α : Type} [DecidableEq α] (p : α → Bool) :
    ∀ (l acc : List α), acc.Nodup → (l.foldl (addIfNew p) acc).Nodup := by
  intro l
  induction l with
  | nil => intro acc h; simpa using h
  | cons x rest ih =>
      intro acc h
      simp only [List.foldl_cons]
      apply ih
      unfold addIfNew
      split
      · next hcond =>
          exact List.Nodup.append h (List.nodup_singleton x)
            (by simpa using fun hx => hcond.2 hx)
      · exact h

theorem pairwise_idx_foldl_addIfNew {α : Type} [DecidableEq α]
    (p : α → Bool) (L : List α) :
    ∀ (rest pre acc : List α), L = pre ++ rest →
      (∀ a, a ∈ acc ↔ (a ∈ pre ∧ p a = true)) →
      acc.Pairwise (fun a b => L.indexOf a < L.indexOf b) →
      (rest.foldl (addIfNew p) acc).Pairwise
        (fun a b => L.indexOf a < L.indexOf b) := by
  intro rest
  induction rest with
  | nil => intro pre acc _ _ hpw; simpa using hpw
  | cons x rest ih =>
      intro pre acc hL hmem hpw
      simp only [List.foldl_cons]
      by_cases hcond : p x = true ∧ x ∉ acc
      · have hxpre : x ∉ pre := fun h => hcond.2 ((hmem x).2 ⟨h, hcond.1⟩)
        have hacc : addIfNew p acc x = acc ++ [x] := if_pos hcond
        rw [hacc]
        refine ih (pre ++ [x]) (acc ++ [x]) (by simpa using hL) ?_ ?_
        · intro a
          simp only [List.mem_append, List.mem_singleton, hmem a]
          constructor
          · rintro (⟨hp, hq⟩ | rfl)
            · exact ⟨Or.inl hp, hq⟩
            · exact ⟨Or.inr rfl, hcond.1⟩
          · rintro ⟨hp | rfl, hq⟩
            · exact Or.inl ⟨hp, hq⟩
            · exact Or.inr rfl
        · rw [List.pairwise_append]
          refine ⟨hpw, List.pairwise_singleton _ _, ?_⟩
          intro a ha b hb
          simp only [List.mem_singleton] at hb
          rw [hb]
          have hapre : a ∈ pre := ((hmem a).1 ha).1
          have hidxa : L.indexOf a < pre.length := by
            rw [hL, List.indexOf_append_of_mem hapre]
            exact List.indexOf_lt_length.2 hapre
          have hidxx : L.indexOf x = pre.length := by
            rw [hL, List.indexOf_append_of_not_mem hxpre, List.indexOf_cons_self]
            omega
          omega
      · have hacc : addIfNew p acc x = acc := if_neg hcond
        rw [hacc]
        refine ih (pre ++ [x]) acc (by simpa using hL) ?_ hpw
        intro a
        rw [hmem a]
        constructor
        · rintro ⟨hp, hq⟩
          exact ⟨List.mem_append.2 (Or.inl hp), hq⟩
        · rintro ⟨hp, hq⟩
          rcases List.mem_append.1 hp with h | h
          · exact ⟨h, hq⟩
          · simp only [List.mem_singleton] at h
            subst h
            rcases Decidable.em (a ∈ acc) with hin | hout
            · exact (hmem a).1 hin
            · exact absurd ⟨hq, hout⟩ hcond

/-- C10: the extracted claim list is an order-preserving subsequence of the
sentence list with no duplicates: every claim occurs among the sentences, the
claims are pairwise ordered by the position of their first occurrence in the
sentence list, and no claim text appears twice. -/
theorem extract_claims_matches_spec (sentences : List String) :
    (extract_claims sentences).Sublist sentences ∧
    (extract_claims sentences).Nodup ∧
    (∀ c ∈ extract_claims sentences, c ∈ sentences) ∧
    (extract_claims sentences).Pairwise
      (fun a b => sentences.indexOf a < sentences.indexOf b) := by
  rw [extract_claims_eq_foldl_addIfNew]
  refine ⟨?_, ?_, ?_, ?_⟩
  · simpa using sublist_foldl_addIfNew is_candidate_claim sentences []
  · exact nodup_foldl_addIfNew is_candidate_claim sentences [] List.nodup_nil
  · intro c hc
    have := (sublist_foldl_addIfNew is_candidate_claim sentences []).subset hc
    simpa using this
  · exact pairwise_idx_foldl_addIfNew is_candidate_claim sentences
      sentences [] [] rfl (by simp) (by simp)

/-! ### Cache key (C5): `VerificationCache._generate_key` in `storage/cache.py` -/

/-- Truncate to a 32-bit word. -/
def w32 (n : Nat) : Nat := n % 4294967296

/-- 32-bit right rotation. -/
def rotr32 (x k : Nat) : Nat := w32 ((x >>> k) ||| (x <<< (32 - k)))

/-- SHA-256 `Ch(x,y,z)`; bitwise negation of `x` as xor with the 32-bit
mask. -/
def shaCh (x y z : Nat) : Nat := (x &&& y) ^^^ ((x ^^^ 4294967295) &&& z)

/-- SHA-256 `Maj(x,y,z)`. -/
def shaMaj (x y z : Nat) : Nat := (x &&& y) ^^^ (x &&& z) ^^^ (y &&& z)

/-- SHA-256 `Σ0`. -/
def bigSigma0 (x : Nat) : Nat := rotr32 x 2 ^^^ rotr32 x 13 ^^^ rotr32 x 22

/-- SHA-256 `Σ1`. -/
def bigSigma1 (x : Nat) : Nat := rotr32 x 6 ^^^ rotr32 x 11 ^^^ rotr32 x 25

/-- SHA-256 `σ0`. -/
def smallSigma0 (x : Nat) : Nat := rotr32 x 7 ^^^ rotr32 x 18 ^^^ (x >>> 3)

/-- SHA-256 `σ1`. -/
def smallSigma1 (x : Nat) : Nat := rotr32 x 17 ^^^ rotr32 x 19 ^^^ (x >>> 10)

/-- The SHA-256 round constants. -/
def shaK : List Nat :=
  [1116352408, 1899447441, 3049323471, 3921009573, 961987163,
   1508970993, 2453635748, 2870763221, 3624381080, 310598401,
   607225278, 1426881987, 1925078388, 2162078206, 2614888103,
   3248222580, 3835390401, 4022224774, 264347078, 604807628,
   770255983, 1249150122, 1555081692, 1996064986, 2554220882,
   2821834349, 2952996808, 3210313671, 3336571891, 3584528711,
   113926993, 338241895, 666307205, 773529912, 1294757372,
   1396182291, 1695183700, 1986661051, 2177026350, 2456956037,
   2730485921, 2820302411, 3259730800, 3345764771, 3516065817,
   3600352804, 4094571909, 275423344, 430227734, 506948616,
   659060556, 883997877, 958139571, 1322822218, 1537002063,
   1747873779, 1955562222, 2024104815, 2227730452, 2361852424,
   2428436474, 2756734187, 3204031479, 3329325298]

/-- The SHA-256 initial hash values. -/
def shaH0 : List Nat :=
  [1779033703, 3144134277, 1013904242, 2773480762,
   1359893119, 2600822924, 528734635, 1541459225]

/-- Big-endian bytes (width `k`) of `n`. -/
def toBytesBE (k n : Nat) : List Nat :=
  (List.range k).map fun i => n / 256 ^ (k - 1 - i) % 256

/-- Group bytes into big-endian 32-bit words. -/
def toWordsBE : List Nat → List Nat
  | b0 :: b1 :: b2 :: b3 :: rest =>
      (b0 * 16777216 + b1 * 65536 + b2 * 256 + b3) :: toWordsBE rest
  | _ => []

/-- Extend the 16 message-schedule words to 64. -/
def extendSchedule (ws : List Nat) : List Nat :=
  (List.range 48).foldl
    (fun w _ =>
      let n := w.length
      w ++ [w32 (smallSigma1 (w.getD (n - 2) 0) + w.getD (n - 7) 0
        + smallSigma0 (w.getD (n - 15) 0) + w.getD (n - 16) 0)])
    ws

/-- The SHA-256 working variables. -/
structure ShaState where
  a : Nat
  b : Nat
  c : Nat
  d : Nat
  e : Nat
  f : Nat
  g : Nat
  h : Nat

/-- One SHA-256 compression round. -/
def shaRound (s : ShaState) (kw : Nat × Nat) : ShaState :=
  let t1 := w32 (s.h + bigSigma1 s.e + shaCh s.e s.f s.g + kw.1 + kw.2)
  let t2 := w32 (bigSigma0 s.a + shaMaj s.a s.b s.c)
  ⟨w32 (t1 + t2), s.a, s.b, s.c, w32 (s.d + t1), s.e, s.f, s.g⟩

/-- Compress one 64-byte block into the running hash. -/
def compressBlock (hs : List Nat) (block : List Nat) : List Nat :=
  let w := extendSchedule (toWordsBE block)
  let s0 : ShaState :=
    ⟨hs.getD 0 0, hs.getD 1 0, hs.getD 2 0, hs.getD 3 0,
     hs.getD 4 0, hs.getD 5 0, hs.getD 6 0, hs.getD 7 0⟩
  let s := (shaK.zip w).foldl shaRound s0
  [w32 (hs.getD 0 0 + s.a), w32 (hs.getD 1 0 + s.b), w32 (hs.getD 2 0 + s.c),
   w32 (hs.getD 3 0 + s.d), w32 (hs.getD 4 0 + s.e), w32 (hs.getD 5 0 + s.f),
   w32 (hs.getD 6 0 + s.g), w32 (hs.getD 7 0 + s.h)]

/-- Split a byte list into 64-byte chunks. -/
def chunk64 : List Nat → List (List Nat)
  | [] => []
  | x :: rest => (x :: rest).take 64 :: chunk64 ((x :: rest).drop 64)
termination_by l => l.length
decreasing_by
  simp only [List.length_drop, List.length_cons]
  omega

/-- SHA-256 padding: `0x80`, zeros to 56 mod 64, then the 64-bit big-endian
bit length. -/
def shaPad (msg : List Nat) : List Nat :=
  let l := msg.length
  let zeros := (64 + 56 - (l + 1) % 64) % 64
  msg ++ 128 :: List.replicate zeros 0 ++ toBytesBE 8 (l * 8)

/-- SHA-256 of a byte list, as 32 bytes. -/
def sha256 (msg : List Nat) : List Nat :=
  let hs := (chunk64 (shaPad msg)).foldl compressBlock shaH0
  (hs.map (toBytesBE 4)).flatten

/-- One lowercase hexadecimal digit. -/
def hexDigit (n : Nat) : Char :=
  if n < 10 then Char.ofNat (48 + n) else Char.ofNat (87 + n)

/-- Lowercase hex string of a byte list (`hexdigest`). -/
def bytesToHex (bs : List Nat) : String :=
  ⟨(bs.map fun b => [hexDigit (b / 16), hexDigit (b % 16)]).flatten⟩

/-- UTF-8 encoding of one character (`str.encode`). -/
def utf8EncodeChar (c : Char) : List Nat :=
  let n := c.toNat
  if n < 128 then [n]
  else if n < 2048 then [192 + n / 64, 128 + n % 64]
  else if n < 65536 then [224 + n / 4096, 128 + n / 64 % 64, 128 + n % 64]
  else [240 + n / 262144, 128 + n / 4096 % 64, 128 + n / 64 % 64, 128 + n % 64]

/-- UTF-8 encoding of a character list. -/
def utf8Encode (s : List Char) : List Nat := (s.map utf8EncodeChar).flatten

/-- `VerificationCache._generate_key` (`storage/cache.py`): the SHA-256 hex
digest of the UTF-8 bytes of `text.lower().strip()`. -/
def generate_key (text : String) : String :=
  bytesToHex (sha256 (utf8Encode (pyStrip (pyLower text.data))))

theorem toNat_ofNat_of_lt {n : Nat} (h : n < 55296) : (Char.ofNat n).toNat = n := by
  rw [Char.ofNat, dif_pos (Or.inl h)]
  rfl

theorem pyLowerChar_idem (c : Char) : pyLowerChar (pyLowerChar c) = pyLowerChar c := by
  unfold pyLowerChar
  by_cases h : 65 ≤ c.toNat ∧ c.toNat ≤ 90
  · rw [if_pos h]
    have ht : (Char.ofNat (c.toNat + 32)).toNat = c.toNat + 32 :=
      toNat_ofNat_of_lt (by omega)
    rw [if_neg (by rw [ht]; omega)]
  · rw [if_neg h, if_neg h]

theorem isPySpace_iff (c : Char) :
    isPySpace c = true ↔
      (c.toNat = 32 ∨ c.toNat = 9 ∨ c.toNat = 10 ∨ c.toNat = 13 ∨
        c.toNat = 11 ∨ c.toNat = 12) := by
  unfold isPySpace
  simp only [Bool.or_eq_true, decide_eq_true_eq]
  tauto

theorem isPySpace_pyLowerChar (c : Char) :
    isPySpace (pyLowerChar c) = isPySpace c := by
  rw [Bool.eq_iff_iff, isPySpace_iff, isPySpace_iff]
  unfold pyLowerChar
  by_cases h : 65 ≤ c.toNat ∧ c.toNat ≤ 90
  · rw [if_pos h, toNat_ofNat_of_lt (by omega)]
    omega
  · rw [if_neg h]

theorem pyLower_idem (s : List Char) : pyLower (pyLower s) = pyLower s := by
  unfold pyLower
  rw [List.map_map]
  exact List.map_congr_left fun c _ => pyLowerChar_idem c

theorem pyStrip_eq_rdropWhile (s : List Char) :
    pyStrip s = List.rdropWhile isPySpace (s.dropWhile isPySpace) := rfl

theorem isPySpace_head_false {s : List Char} {c : Char} {rest : List Char}
    (h : s.dropWhile isPySpace = c :: rest) : isPySpace c = false := by
  have hh := List.head?_dropWhile_not isPySpace s
  rw [h] at hh
  simpa using hh

theorem dropWhile_pyStrip (s : List Char) :
    (pyStrip s).dropWhile isPySpace = pyStrip s := by
  cases hh : pyStrip s with
  | nil => simp
  | cons c t =>
      have hpre : List.IsPrefix (pyStrip s) (s.dropWhile isPySpace) := by
        rw [pyStrip_eq_rdropWhile]
        exact List.rdropWhile_prefix _ _
      rw [hh] at hpre
      obtain ⟨r, hr⟩ := hpre
      have hc : isPySpace c = false := by
        apply @isPySpace_head_false s c (t ++ r)
        rw [← hr]
        rfl
      rw [List.dropWhile_cons, hc]
      simp

theorem pyStrip_idem (s : List Char) : pyStrip (pyStrip s) = pyStrip s := by
  rw [pyStrip_eq_rdropWhile (pyStrip s), dropWhile_pyStrip s,
    pyStrip_eq_rdropWhile s, List.rdropWhile_idempotent]

theorem pyLower_pyStrip_comm (s : List Char) :
    pyLower (pyStrip s) = pyStrip (pyLower s) := by
  have hcomp : (isPySpace ∘ pyLowerChar) = isPySpace := by
    funext c
    exact isPySpace_pyLowerChar c
  unfold pyStrip pyLower
  symm
  rw [List.dropWhile_map, hcomp, ← List.map_reverse, List.dropWhile_map, hcomp,
    ← List.map_reverse]

/-- C5: the cache key is SHA-256 of the lowercased, stripped text: texts that
agree after that normalization share a key (so `key "Earth Is Flat "` equals
`key "earth is flat"`), and the key function is idempotent under the
normalization: `key (lower (strip s)) = key s`. -/
theorem generate_key_matches_spec :
    (∀ s t : String,
      pyStrip (pyLower s.data) = pyStrip (pyLower t.data) →
      generate_key s = generate_key t) ∧
    generate_key "Earth Is Flat " = generate_key "earth is flat" ∧
    (∀ s : String,
      generate_key (String.mk (pyLower (pyStrip s.data))) = generate_key s) := by
  have hcong : ∀ s t : String,
      pyStrip (pyLower s.data) = pyStrip (pyLower t.data) →
      generate_key s = generate_key t := by
    intro s t h
    unfold generate_key
    rw [h]
  refine ⟨hcong, ?_, ?_⟩
  · apply hcong
    decide
  · intro s
    apply hcong
    show pyStrip (pyLower (pyLower (pyStrip s.data))) = pyStrip (pyLower s.data)
    rw [pyLower_idem, pyLower_pyStrip_comm, pyStrip_idem]

theorem generate_key_matches_spec_witness :
    (pyStrip (pyLower ("Some Claim ").data) =
        pyStrip (pyLower ("some claim").data)) ∧
    generate_key "Some Claim " = generate_key "some claim" :=
  ⟨by decide, generate_key_matches_spec.1 "Some Claim " "some claim" (by decide)⟩

/-! ### Serialization round trip (C6): `storage/cache.py` -/

/-- `Verdict.value` (`core/models.py` enum values). -/
def Verdict.value : Verdict → String
  | .TRUE => "TRUE"
  | .FALSE => "FALSE"
  | .MISLEADING => "MISLEADING"
  | .UNVERIFIABLE => "UNVERIFIABLE"
  | .UNCERTAIN => "UNCERTAIN"

/-- Python `Verdict(s)`: the enum constructor by value, raising (here `none`)
on an unknown value. -/
def Verdict.ofString (s : String) : Option Verdict :=
  if s = "TRUE" then some .TRUE
  else if s = "FALSE" then some .FALSE
  else if s = "MISLEADING" then some .MISLEADING
  else if s = "UNVERIFIABLE" then some .UNVERIFIABLE
  else if s = "UNCERTAIN" then some .UNCERTAIN
  else none

/-- `VerificationStrategy.value` (`core/hybrid_decisor.py` enum values). -/
def VerificationStrategy.value : VerificationStrategy → String
  | .LOCAL_ONLY => "local_only"
  | .CLOUD_ONLY => "cloud_only"
  | .HYBRID => "hybrid"

/-- Python `VerificationStrategy(s)`. -/
def VerificationStrategy.ofString (s : String) : Option VerificationStrategy :=
  if s = "local_only" then some .LOCAL_ONLY
  else if s = "cloud_only" then some .CLOUD_ONLY
  else if s = "hybrid" then some .HYBRID
  else none

/-- A decimal digit character. -/
def natDigitChar (n : Nat) : Char := Char.ofNat (48 + n)

/-- Two-digit zero-padded decimal. -/
def pad2 (n : Nat) : List Char := [natDigitChar (n / 10), natDigitChar (n % 10)]

/-- Four-digit zero-padded decimal. -/
def pad4 (n : Nat) : List Char :=
  [natDigitChar (n / 1000 % 10), natDigitChar (n / 100 % 10),
   natDigitChar (n / 10 % 10), natDigitChar (n % 10)]

/-- Six-digit zero-padded decimal. -/
def pad6 (n : Nat) : List Char :=
  [natDigitChar (n / 100000 % 10), natDigitChar (n / 10000 % 10),
   natDigitChar (n / 1000 % 10), natDigitChar (n / 100 % 10),
   natDigitChar (n / 10 % 10), natDigitChar (n % 10)]

/-- `datetime.isoformat()` for a naive datetime:
`YYYY-MM-DDTHH:MM:SS[.ffffff]`, microseconds printed only when nonzero. -/
def DateTime.isoformat (d : DateTime) : String :=
  ⟨pad4 d.year ++ ('-' :: (pad2 d.month ++ ('-' :: (pad2 d.day ++ ('T' ::
    (pad2 d.hour ++ (':' :: (pad2 d.minute ++ (':' :: (pad2 d.second ++
    (if d.microsecond = 0 then [] else '.' :: pad6 d.microsecond)))))))))))⟩

/-- Decimal digit value of a character. -/
def digitVal (c : Char) : Option Nat :=
  if 48 ≤ c.toNat ∧ c.toNat ≤ 57 then some (c.toNat - 48) else none

/-- Parse exactly `k` decimal digits into an accumulator. -/
def parseFixed : Nat → Nat → List Char → Option (Nat × List Char)
  | 0, acc, s => some (acc, s)
  | _ + 1, _, [] => none
  | k + 1, acc, c :: s =>
      match digitVal c with
      | some v => parseFixed k (acc * 10 + v) s
      | none => none

/-- Expect one literal character. -/
def expectChar (c : Char) : List Char → Option (List Char)
  | [] => none
  | x :: s => if x = c then some s else none

/-- The range constraints Python's `datetime` constructor enforces (day is
bounded by 31 here rather than by the per-month length). -/
def DateTime.valid (d : DateTime) : Prop :=
  1 ≤ d.year ∧ d.year ≤ 9999 ∧ 1 ≤ d.month ∧ d.month ≤ 12 ∧
    1 ≤ d.day ∧ d.day ≤ 31 ∧ d.hour ≤ 23 ∧ d.minute ≤ 59 ∧ d.second ≤ 59 ∧
    d.microsecond ≤ 999999

instance (d : DateTime) : Decidable d.valid := by
  unfold DateTime.valid
  infer_instance

/-- `datetime.fromisoformat` on the subset of shapes `isoformat` emits for
naive datetimes. -/
def DateTime.fromisoformat (str : String) : Option DateTime := do
  let (y, r1) ← parseFixed 4 0 str.data
  let r2 ← expectChar '-' r1
  let (mo, r3) ← parseFixed 2 0 r2
  let r4 ← expectChar '-' r3
  let (d, r5) ← parseFixed 2 0 r4
  let r6 ← expectChar 'T' r5
  let (h, r7) ← parseFixed 2 0 r6
  let r8 ← expectChar ':' r7
  let (mi, r9) ← parseFixed 2 0 r8
  let r10 ← expectChar ':' r9
  let (sec, r11) ← parseFixed 2 0 r10
  let (us, r12) ←
    match r11 with
    | [] => some (0, ([] : List Char))
    | c :: rest => do
        let r ← expectChar '.' (c :: rest)
        parseFixed 6 0 r
  let dt : DateTime := ⟨y, mo, d, h, mi, sec, us⟩
  if r12 = [] ∧ dt.valid then some dt else none

theorem digitVal_natDigitChar (v : Nat) (h : v < 10) :
    digitVal (natDigitChar v) = some v := by
  unfold digitVal natDigitChar
  rw [toNat_ofNat_of_lt (by omega), if_pos (by omega)]
  congr 1
  omega

theorem parseFixed_pad2 (n : Nat) (h : n < 100) (rest : List Char) :
    parseFixed 2 0 (pad2 n ++ rest) = some (n, rest) := by
  have h1 : n / 10 < 10 := by omega
  have h2 : n % 10 < 10 := by omega
  simp only [pad2, List.cons_append, List.nil_append, parseFixed,
    digitVal_natDigitChar _ h1, digitVal_natDigitChar _ h2]
  congr 1
  rw [Prod.mk.injEq]
  constructor
  · omega
  · rfl

theorem parseFixed_pad4 (n : Nat) (h : n < 10000) (rest : List Char) :
    parseFixed 4 0 (pad4 n ++ rest) = some (n, rest) := by
  have h1 : n / 1000 % 10 < 10 := by omega
  have h2 : n / 100 % 10 < 10 := by omega
  have h3 : n / 10 % 10 < 10 := by omega
  have h4 : n % 10 < 10 := by omega
  simp only [pad4, List.cons_append, List.nil_append, parseFixed,
    digitVal_natDigitChar _ h1, digitVal_natDigitChar _ h2,
    digitVal_natDigitChar _ h3, digitVal_natDigitChar _ h4]
  congr 1
  rw [Prod.mk.injEq]
  constructor
  · omega
  · rfl

theorem parseFixed_pad6 (n : Nat) (h : n < 1000000) (rest : List Char) :
    parseFixed 6 0 (pad6 n ++ rest) = some (n, rest) := by
  have h1 : n / 100000 % 10 < 10 := by omega
  have h2 : n / 10000 % 10 < 10 := by omega
  have h3 : n / 1000 % 10 < 10 := by omega
  have h4 : n / 100 % 10 < 10 := by omega
  have h5 : n / 10 % 10 < 10 := by omega
  have h6 : n % 10 < 10 := by omega
  simp only [pad6, List.cons_append, List.nil_append, parseFixed,
    digitVal_natDigitChar _ h1, digitVal_natDigitChar _ h2,
    digitVal_natDigitChar _ h3, digitVal_natDigitChar _ h4,
    digitVal_natDigitChar _ h5, digitVal_natDigitChar _ h6]
  congr 1
  rw [Prod.mk.injEq]
  constructor
  · omega
  · rfl

theorem expectChar_cons (c : Char) (rest : List Char) :
    expectChar c (c :: rest) = some rest := by
  simp [expectChar]

set_option maxHeartbeats 1000000 in
theorem fromisoformat_isoformat (d : DateTime) (h : d.valid) :
    DateTime.fromisoformat d.isoformat = some d := by
  obtain ⟨h1, h2, h3, h4, h5, h6, h7, h8, h9, h10⟩ := h
  unfold DateTime.fromisoformat DateTime.isoformat
  have hsec : parseFixed 2 0 (pad2 d.second) = some (d.second, []) := by
    simpa using parseFixed_pad2 d.second (by omega) []
  have hmicro : parseFixed 6 0 (pad6 d.microsecond) = some (d.microsecond, []) := by
    simpa using parseFixed_pad6 d.microsecond (by omega) []
  by_cases hus : d.microsecond = 0
  · rw [if_pos hus]
    simp only [Option.bind_eq_bind, Option.some_bind, expectChar_cons,
      List.append_nil, true_and,
      parseFixed_pad4 d.year (by omega),
      parseFixed_pad2 d.month (by omega), parseFixed_pad2 d.day (by omega),
      parseFixed_pad2 d.hour (by omega), parseFixed_pad2 d.minute (by omega),
      hsec]
    have hv : DateTime.valid
        ⟨d.year, d.month, d.day, d.hour, d.minute, d.second, 0⟩ :=
      ⟨h1, h2, h3, h4, h5, h6, h7, h8, h9, Nat.zero_le _⟩
    rw [if_pos hv]
    congr 1
    cases d
    simp_all
  · rw [if_neg hus]
    simp only [Option.bind_eq_bind, Option.some_bind, expectChar_cons,
      List.append_nil, true_and,
      parseFixed_pad4 d.year (by omega),
      parseFixed_pad2 d.month (by omega), parseFixed_pad2 d.day (by omega),
      parseFixed_pad2 d.hour (by omega), parseFixed_pad2 d.minute (by omega),
      parseFixed_pad2 d.second (by omega), hmicro]
    have hv : DateTime.valid
        ⟨d.year, d.month, d.day, d.hour, d.minute, d.second, d.microsecond⟩ :=
      ⟨h1, h2, h3, h4, h5, h6, h7, h8, h9, h10⟩
    rw [if_pos hv]

/-- The dictionary `_serialize_result` builds (`storage/cache.py`): enum
values and the timestamp flattened to strings, everything else copied. -/
structure SerializedResult where
  verdict : String
  confidence : ℚ
  explanation : String
  sources : List String
  evidence : List String
  strategy_used : Option String
  processing_time : ℚ
  timestamp : String
  metadata : Metadata
  deriving DecidableEq

/-- `VerificationCache._serialize_result` (`storage/cache.py`). -/
def serialize_result (r : VerificationResult) : SerializedResult :=
  { verdict := r.verdict.value
    confidence := r.confidence
    explanation := r.explanation
    sources := r.sources
    evidence := r.evidence
    strategy_used := r.strategy_used.map VerificationStrategy.value
    processing_time := r.processing_time
    timestamp := r.timestamp.isoformat
    metadata := r.metadata }

/-- `VerificationCache._deserialize_result` (`storage/cache.py`): enum and
timestamp parsing may raise (here `none`); a falsy `strategy_used` (absent or
empty) becomes `None`. -/
def deserialize_result (data : SerializedResult) : Option VerificationResult := do
  let v ← Verdict.ofString data.verdict
  let strat ←
    match data.strategy_used with
    | none => some none
    | some s =>
        if s = "" then some none
        else (VerificationStrategy.ofString s).map some
  let ts ← DateTime.fromisoformat data.timestamp
  some
    { verdict := v
      confidence := data.confidence
      explanation := data.explanation
      sources := data.sources
      evidence := data.evidence
      strategy_used := strat
      processing_time := data.processing_time
      timestamp := ts
      metadata := data.metadata }

theorem ofString_value (v : Verdict) : Verdict.ofString v.value = some v := by
  cases v <;> rfl

theorem strategy_ofString_value (s : VerificationStrategy) :
    VerificationStrategy.ofString s.value = some s := by
  cases s <;> rfl

theorem strategy_value_ne_empty (s : VerificationStrategy) : s.value ≠ "" := by
  cases s <;> decide

/-- C6: deserializing the cache serialization of any `VerificationResult`
(its timestamp being a well-formed datetime, and its strategy possibly null)
restores every field exactly. -/
theorem serialize_roundtrip_matches_spec (r : VerificationResult)
    (h : r.timestamp.valid) :
    deserialize_result (serialize_result r) = some r := by
  obtain ⟨v, conf, expl, srcs, ev, strat, pt, ts, md⟩ := r
  unfold deserialize_result serialize_result
  simp only [Option.bind_eq_bind, Option.some_bind, ofString_value,
    fromisoformat_isoformat ts h]
  cases strat with
  | none => rfl
  | some st =>
      have hmap : Option.map VerificationStrategy.value (some st) = some st.value := rfl
      rw [hmap]
      simp only [if_neg (strategy_value_ne_empty st), strategy_ofString_value]
      rfl

theorem serialize_roundtrip_matches_spec_witness :
    (sampleCloudResult.timestamp.valid) ∧
    deserialize_result (serialize_result sampleCloudResult) =
      some sampleCloudResult :=
  ⟨by decide, serialize_roundtrip_matches_spec sampleCloudResult (by decide)⟩

/-! ### Cache `get` with TTL expiry (C4): `VerificationCache.get` -/

/-- The diskcache key-value store, as an association list. -/
abbrev CacheStore : Type := List (String × SerializedResult)

/-- `self.cache.get(key)` of the underlying store. -/
def store_lookup (key : String) : CacheStore → Option SerializedResult
  | [] => none
  | (k, v) :: rest => if k = key then some v else store_lookup key rest

/-- `self.cache.delete(key)` of the underlying store. -/
def store_delete (key : String) : CacheStore → CacheStore
  | [] => []
  | (k, v) :: rest =>
      if k = key then store_delete key rest else (k, v) :: store_delete key rest

/-- Days from 1970-01-01 of the proleptic Gregorian calendar (the standard
civil-to-days formula; every intermediate quantity is nonnegative for years
≥ 1, so truncating division agrees with floor division). -/
def daysFromCivil (dt : DateTime) : Int :=
  let y : Int := if dt.month ≤ 2 then (dt.year : Int) - 1 else (dt.year : Int)
  let era : Int := y / 400
  let yoe : Int := y - era * 400
  let mp : Int := ((dt.month : Int) + 9) % 12
  let doy : Int := (153 * mp + 2) / 5 + (dt.day : Int) - 1
  let doe : Int := yoe * 365 + yoe / 4 - yoe / 100 + doy
  era * 146097 + doe - 719468

/-- Microseconds on the timeline; `datetime` subtraction compares these. -/
def DateTime.totalMicroseconds (dt : DateTime) : Int :=
  daysFromCivil dt * 86400000000 +
    (((dt.hour * 3600 + dt.minute * 60 + dt.second) * 1000000
      + dt.microsecond : Nat) : Int)

/-- `datetime.now() − cached_time > timedelta(hours=settings.cache_ttl_hours)`
in `VerificationCache.get`. -/
def ttl_expired (now cached_time : DateTime) (ttl_hours : Nat) : Prop :=
  DateTime.totalMicroseconds now - DateTime.totalMicroseconds cached_time >
    (ttl_hours : Int) * 3600000000

instance (now cached_time : DateTime) (ttl_hours : Nat) :
    Decidable (ttl_expired now cached_time ttl_hours) := by
  unfold ttl_expired
  infer_instance

/-- `VerificationCache.get` (`storage/cache.py`) over the store model: hash
the text, look the key up, compare `now − created_at` with the TTL against
the stored timestamp, lazily deleting an expired entry; a missing key, an
unparsable timestamp, or a failed deserialization is a miss (the `except`
path leaves the store unchanged). Returns the result and the store after the
call. -/
def cache_get (store : CacheStore) (text : String) (now : DateTime)
    (ttl_hours : Nat) : Option VerificationResult × CacheStore :=
  let key := generate_key text
  match store_lookup key store with
  | none => (none, store)
  | some cached_data =>
      match DateTime.fromisoformat cached_data.timestamp with
      | none => (none, store)
      | some cached_time =>
          if ttl_expired now cached_time ttl_hours then
            (none, store_delete key store)
          else
            match deserialize_result cached_data with
            | none => (none, store)
            | some result => (some result, store)

theorem store_lookup_delete (key : String) (store : CacheStore) :
    store_lookup key (store_delete key store) = none := by
  induction store with
  | nil => rfl
  | cons kv rest ih =>
      obtain ⟨k, v⟩ := kv
      unfold store_delete
      by_cases hk : k = key
      · rw [if_pos hk]
        exact ih
      · rw [if_neg hk]
        unfold store_lookup
        rw [if_neg hk]
        exact ih

/-- C4: `get` misses on an absent key; an entry whose age exceeds the TTL is
deleted and reported as a miss and stays absent from every subsequent lookup
(lazy expiry); a fresh entry is returned with the store untouched (no TTL
refresh on read, no background sweep). -/
theorem cache_get_matches_spec (store : CacheStore) (text : String)
    (now : DateTime) (ttl_hours : Nat) :
    (store_lookup (generate_key text) store = none →
      cache_get store text now ttl_hours = (none, store)) ∧
    (∀ cached_data cached_time,
      store_lookup (generate_key text) store = some cached_data →
      DateTime.fromisoformat cached_data.timestamp = some cached_time →
      ttl_expired now cached_time ttl_hours →
      cache_get store text now ttl_hours =
        (none, store_delete (generate_key text) store) ∧
      store_lookup (generate_key text)
        (store_delete (generate_key text) store) = none ∧
      (∀ now2, (cache_get (store_delete (generate_key text) store) text now2
        ttl_hours).1 = none)) ∧
    (∀ cached_data cached_time result,
      store_lookup (generate_key text) store = some cached_data →
      DateTime.fromisoformat cached_data.timestamp = some cached_time →
      ¬ ttl_expired now cached_time ttl_hours →
      deserialize_result cached_data = some result →
      cache_get store text now ttl_hours = (some result, store)) := by
  refine ⟨?_, ?_, ?_⟩
  · intro hmiss
    unfold cache_get
    simp only [hmiss]
  · intro cached_data cached_time hfound hparse hexp
    refine ⟨?_, store_lookup_delete _ _, ?_⟩
    · unfold cache_get
      simp only [hfound, hparse, if_pos hexp]
    · intro now2
      unfold cache_get
      simp only [store_lookup_delete]
  · intro cached_data cached_time result hfound hparse hfresh hdeser
    unfold cache_get
    simp only [hfound, hparse, if_neg hfresh, hdeser]

/-- `T + 61 minutes` relative to `sampleTime`. -/
def demoReadTime : DateTime := ⟨2024, 1, 1, 13, 1, 0, 0⟩

/-- A store holding one entry written at `sampleTime`. -/
def demoStore : CacheStore :=
  [(generate_key "the earth is flat", serialize_result sampleCloudResult)]

theorem cache_get_matches_spec_witness :
    cache_get demoStore "the earth is flat" demoReadTime 1 =
        (none, store_delete (generate_key "the earth is flat") demoStore) ∧
      store_lookup (generate_key "the earth is flat")
        (store_delete (generate_key "the earth is flat") demoStore) = none ∧
      (∀ now2, (cache_get (store_delete (generate_key "the earth is flat") demoStore)
        "the earth is flat" now2 1).1 = none) :=
  (cache_get_matches_spec demoStore "the earth is flat" demoReadTime 1).2.1
    (serialize_result sampleCloudResult) sampleTime
    (by simp [demoStore, store_lookup])
    (by decide) (by decide)
